import Mathlib

/-!
Verification development for the deep-research repository.

The client under scrutiny is the Next.js page (streaming and
non-streaming submission, SSE line parsing, stream-event dispatch and
citation rendering).  Its handlers are embedded below as pure state
transformers.  The backend engine (checklist store, source ledger, tool
dispatcher, orchestration loop) is not part of the source tree; those
components are modelled from the specification and are marked as such in
their doc comments.
-/

namespace DeepResearch

/-- Status of a checklist item, from the ChecklistItem interface. -/
inductive Status where
  | pending
  | completed
deriving DecidableEq, Repr

/-- ChecklistItem, from the client interface: id, question, status,
optional findings, source id list. -/
structure ChecklistItem where
  id : String
  question : String
  status : Status
  findings : Option String := none
  source_ids : List String := []
deriving DecidableEq, Repr

/-- The checklist is a string-keyed record of items; JS objects preserve
insertion order, so it is embedded as an ordered association list. -/
abbrev Checklist := List (String × ChecklistItem)

/-- Source, from the client interface. -/
structure Source where
  id : String
  url : String
  title : String
  content : String
deriving DecidableEq, Repr

/-- One tool call attached to an assistant message; the nested
function object of the source is flattened into two fields. -/
structure ToolCall where
  id : String
  function_name : String
  function_arguments : String
deriving DecidableEq, Repr

/-- Message, from the client interface. -/
structure Message where
  role : String
  content : Option String := none
  name : Option String := none
  tool_calls : Option (List ToolCall) := none
  tool_call_id : Option String := none
deriving DecidableEq, Repr

/-- One entry of the activity log kept by the client; each constructor
stores exactly the fields the corresponding handler branch copies out of
the event payload. -/
inductive ActivityEntry where
  | reasoning (content : String)
  | started (tool_name : String) (tool_call_id : String) (arguments : String)
  | completedTool (tool_name : String) (success : Bool)
deriving DecidableEq, Repr

/-- The context object carried by a complete event; both fields are
accessed with optional chaining in the source, hence Option. -/
structure CompleteContext where
  checklist : Option Checklist := none
  sources : Option (List Source) := none
deriving DecidableEq, Repr

/-- The JSON payload of one SSE event.  The source reads the payload as
untyped data; the fields below are exactly the ones the handlers access.
Fields read unconditionally default to a neutral value, fields guarded
by a presence test in the source are Option. -/
structure EventData where
  content : String := ""
  tool_name : String := ""
  tool_call_id : String := ""
  arguments : String := ""
  success : Bool := false
  items : Checklist := []
  sources : List Source := []
  report : String := ""
  messages : Option (List Message) := none
  context : Option CompleteContext := none
  error : String := ""
deriving DecidableEq, Repr

/-- The client state touched by the submission handlers: the five
useState cells that hold research results and the activity log. -/
structure ClientState where
  messages : List Message := []
  checklist : Checklist := []
  sources : List Source := []
  finalReport : Option String := none
  activityLog : List ActivityEntry := []
deriving DecidableEq, Repr

/-- Checklist taken from a complete event payload: replaced only when
the optional chain data.context?.checklist is present. -/
def contextChecklist (d : EventData) (old : Checklist) : Checklist :=
  match d.context with
  | some ctx => ctx.checklist.getD old
  | none => old

/-- Sources taken from a complete event payload: replaced only when the
optional chain data.context?.sources is present. -/
def contextSources (d : EventData) (old : List Source) : List Source :=
  match d.context with
  | some ctx => ctx.sources.getD old
  | none => old

/-- handleStreamEvent from the client: dispatch on the event type string
(a JS switch with no default case, so an unmatched type is a no-op). -/
def handleStreamEvent (eventType : String) (data : EventData) (s : ClientState) : ClientState :=
  if eventType = "agent_reasoning" then
    { s with activityLog := s.activityLog ++ [ActivityEntry.reasoning data.content] }
  else if eventType = "tool_call_started" then
    { s with activityLog :=
        s.activityLog ++ [ActivityEntry.started data.tool_name data.tool_call_id data.arguments] }
  else if eventType = "tool_call_completed" then
    { s with activityLog :=
        s.activityLog ++ [ActivityEntry.completedTool data.tool_name data.success] }
  else if eventType = "checklist_updated" then
    { s with checklist := data.items }
  else if eventType = "source_discovered" then
    { s with sources := s.sources ++ data.sources }
  else if eventType = "final_report" then
    { s with finalReport := some data.report }
  else if eventType = "complete" then
    { s with messages := data.messages.getD [],
             checklist := contextChecklist data s.checklist,
             sources := contextSources data s.sources }
  else if eventType = "error" then
    s
  else
    s

/-- The eight event type names the switch in handleStreamEvent handles. -/
def handledEventTypes : List String :=
  ["agent_reasoning", "tool_call_started", "tool_call_completed",
   "checklist_updated", "source_discovered", "final_report", "complete", "error"]

/-- State reset performed at the top of handleSubmitStreaming: report,
activity log, checklist and sources are cleared; messages are not. -/
def streamInit (s : ClientState) : ClientState :=
  { s with finalReport := none, activityLog := [], checklist := [], sources := [] }

/-- Folding handleStreamEvent over a list of (event type, payload)
pairs, in arrival order. -/
def foldEvents (s : ClientState) (evs : List (String × EventData)) : ClientState :=
  evs.foldl (fun st e => handleStreamEvent e.1 e.2 st) s

/-- The synchronous response body of the non-streaming endpoint. -/
structure ResponseData where
  messages : List Message
  checklist : Checklist
  sources : List Source
  final_report : Option String
deriving DecidableEq, Repr

/-- handleSubmitNonStreaming from the client, collapsed to its effect on
the state: it clears the report and activity log, then installs the four
fields of the response body. -/
def handleSubmitNonStreaming (resp : ResponseData) (s : ClientState) : ClientState :=
  { s with messages := resp.messages,
           checklist := resp.checklist,
           sources := resp.sources,
           finalReport := resp.final_report,
           activityLog := [] }

/-- Prefix test on strings, at the character-list level. -/
def strStartsWith (s pfx : String) : Bool :=
  pfx.data.isPrefixOf s.data

/-- Dropping the first n characters of a string, at the character-list
level (the substring call of the source). -/
def strDrop (s : String) (n : Nat) : String :=
  String.mk (s.data.drop n)

/-- Trimming surrounding whitespace, at the character-list level. -/
def strTrim (s : String) : String :=
  String.mk (((s.data.dropWhile Char.isWhitespace).reverse.dropWhile
    Char.isWhitespace).reverse)

/-- One step of the SSE line loop in handleSubmitStreaming.  The
accumulator is (currentEventType, client state).  An event line stores
its trimmed remainder as the current type; a data line whose payload
parses dispatches handleStreamEvent and resets the type to unknown; a
data line that fails to parse only logs (the reset is skipped because it
sits after the dispatch inside the try block); any other line is
ignored.  JSON parsing is abstracted as a parse function. -/
def processLine (parse : String → Option EventData) (line : String)
    (acc : String × ClientState) : String × ClientState :=
  if strStartsWith line "event:" then
    (strTrim (strDrop line 6), acc.2)
  else if strStartsWith line "data:" then
    match parse (strTrim (strDrop line 5)) with
    | some d => ("unknown", handleStreamEvent acc.1 d acc.2)
    | none => acc
  else
    acc

/-- handleSubmitStreaming, collapsed to its effect on the state: reset,
then the SSE line loop starting with event type unknown. -/
def handleSubmitStreaming (parse : String → Option EventData)
    (lines : List String) (s : ClientState) : String × ClientState :=
  lines.foldl (fun acc l => processLine parse l acc) ("unknown", streamInit s)

/-- A node produced by the citation pass over a text child: either plain
text or a citation link carrying the digit string between brackets. -/
inductive CNode where
  | text (t : List Char)
  | cite (ds : List Char)
deriving DecidableEq, Repr

/-- Leftmost match of the citation marker pattern (an opening bracket,
one or more decimal digits, a closing bracket) at the head of the
character list; on success returns the digits and the remainder after
the closing bracket.  This is the semantics of the regex used by the
client in both split and match. -/
def matchCite : List Char → Option (List Char × List Char)
  | [] => none
  | c :: rest =>
    if c = '[' then
      if (rest.takeWhile Char.isDigit).isEmpty then none
      else
        match rest.dropWhile Char.isDigit with
        | [] => none
        | r :: after =>
          if r = ']' then some (rest.takeWhile Char.isDigit, after) else none
    else none

/-- Prepend one character to the node list, merging into a leading text
node when there is one, so plain text between markers stays one node. -/
def consText (c : Char) : List CNode → List CNode
  | CNode.text t :: ns => CNode.text (c :: t) :: ns
  | ns => CNode.text [c] :: ns

/-- Fuel-indexed scanner: at each position either the marker pattern
matches (emitting a citation node and skipping past it, exactly as the
regex split does for each separator occurrence) or the character joins
the surrounding text.  The fuel is instantiated with the input length,
which every recursive call respects. -/
def scanCitesAux : Nat → List Char → List CNode
  | 0, _ => []
  | _, [] => []
  | fuel + 1, c :: cs =>
    match matchCite (c :: cs) with
    | some (ds, rest) => CNode.cite ds :: scanCitesAux fuel rest
    | none => consText c (scanCitesAux fuel cs)

/-- processCitations from the client: split a string child on the
citation marker regex and turn each marker into a citation link node,
leaving the text between markers as plain text nodes. -/
def processCitations (s : String) : List CNode :=
  scanCitesAux s.data.length s.data

/-- Render the node list back to characters: a citation link displays
its bracketed number, text is itself. -/
def flattenNodes : List CNode → List Char
  | [] => []
  | CNode.text t :: ns => t ++ flattenNodes ns
  | CNode.cite ds :: ns => '[' :: (ds ++ ']' :: flattenNodes ns)

/-- Whether a character list still contains an occurrence of the
citation marker pattern anywhere. -/
def hasMarker : List Char → Bool
  | [] => false
  | c :: cs => (matchCite (c :: cs)).isSome || hasMarker cs

/-- A document returned by the external search collaborator. -/
structure Doc where
  url : String
  title : String
  content : String
deriving DecidableEq, Repr

/-- Modelled from the spec: the Source Ledger, a deduplicated registry
of discovered documents (the backend module is not in the source tree).
It owns the visible ordered source sequence and the next sequential id. -/
structure Ledger where
  sources : List Source := []
  nextId : Nat := 1
deriving DecidableEq, Repr

/-- Modelled from the spec: register one document.  Dedup key is the
normalized URL; a known URL returns its pre-existing id with no append,
a fresh URL mints the next sequential id and appends the source.  The
third component is the net-new entry, when one was created. -/
def Ledger.registerOne (norm : String → String) (st : Ledger) (d : Doc) :
    String × Ledger × Option Source :=
  match st.sources.find? (fun s => norm s.url == norm d.url) with
  | some s => (s.id, st, none)
  | none =>
    let s : Source :=
      { id := toString st.nextId, url := d.url, title := d.title, content := d.content }
    (s.id, { sources := st.sources ++ [s], nextId := st.nextId + 1 }, some s)

/-- Modelled from the spec: register a batch of documents, producing one
assigned id per input in input order, the updated ledger, and the list
of genuinely new sources in discovery order (the payload of a
source_discovered event). -/
def Ledger.register (norm : String → String) (st : Ledger) :
    List Doc → List String × Ledger × List Source
  | [] => ([], st, [])
  | d :: ds =>
    let r1 := st.registerOne norm d
    let rs := Ledger.register norm r1.2.1 ds
    (r1.1 :: rs.1, rs.2.1,
      (match r1.2.2 with | some s => [s] | none => []) ++ rs.2.2)

/-- Modelled from the spec: URL normalization used as the dedup key (the
spec fixes no algorithm; whitespace trimming and lower-casing stand in
for it, and every ledger theorem is parametric in the function). -/
def normalizeUrl (u : String) : String :=
  u.trim.toLower

/-- Modelled from the spec: the Checklist Store, an ordered id-keyed
collection of research items plus the next fresh item number (the
backend module is not in the source tree). -/
structure ChecklistStore where
  items : Checklist := []
  nextId : Nat := 1
deriving DecidableEq, Repr

/-- Lookup of an item by id (first binding wins, as in a keyed map). -/
def lookupItem (items : Checklist) (id : String) : Option ChecklistItem :=
  (items.find? (fun p => p.1 == id)).map (fun p => p.2)

/-- Modelled from the spec: merge the non-null upsert fields into an
existing item.  Status moves only pending to completed and never
reverts, and findings are written only once, on completion, and never
overwritten afterwards, per the data-model invariants of the spec. -/
def upsertItem (old : ChecklistItem) (question : Option String) (status : Option Status)
    (findings : Option String) (source_ids : Option (List String)) : ChecklistItem :=
  let newStatus :=
    match old.status, status with
    | Status.completed, _ => Status.completed
    | Status.pending, some Status.completed => Status.completed
    | Status.pending, _ => Status.pending
  { old with
    question := question.getD old.question,
    status := newStatus,
    findings :=
      match old.findings with
      | some f => some f
      | none => if newStatus = Status.completed then findings else none,
    source_ids := source_ids.getD old.source_ids }

/-- Modelled from the spec: Checklist Store upsert.  An omitted id
allocates a fresh identifier and inserts a pending item; a supplied id
merges fields when present and fails with UnknownItemError when absent. -/
def ChecklistStore.upsert (st : ChecklistStore) (item_id : Option String)
    (question : Option String) (status : Option Status) (findings : Option String)
    (source_ids : Option (List String)) : Except String ChecklistStore :=
  match item_id with
  | none =>
    let id := "item_" ++ toString st.nextId
    Except.ok
      { items := st.items ++
          [(id, { id := id, question := question.getD "", status := Status.pending })],
        nextId := st.nextId + 1 }
  | some id =>
    match lookupItem st.items id with
    | none => Except.error "UnknownItemError"
    | some old =>
      Except.ok
        { st with items := st.items.map (fun p =>
            if p.1 == id then (p.1, upsertItem old question status findings source_ids)
            else p) }

/-- One entry of a modify_checklist tool argument. -/
structure UpsertRequest where
  item_id : Option String := none
  question : Option String := none
  status : Option Status := none
  findings : Option String := none
  source_ids : Option (List String) := none
deriving DecidableEq, Repr

/-- Modelled from the spec: apply the entries of a modify_checklist call
through upsert, in order; the first failing entry aborts the batch. -/
def applyUpserts (cs : ChecklistStore) : List UpsertRequest → Except String ChecklistStore
  | [] => Except.ok cs
  | u :: us =>
    match cs.upsert u.item_id u.question u.status u.findings u.source_ids with
    | Except.ok cs2 => applyUpserts cs2 us
    | Except.error e => Except.error e

/-- Modelled from the spec: the session state owned by the orchestration
loop: transcript, checklist store, source ledger, iteration counter,
terminal flag and the final report. -/
structure SessionState where
  messages : List Message := []
  checklist : ChecklistStore := {}
  ledger : Ledger := {}
  iterations : Nat := 0
  finished : Bool := false
  finalReport : Option String := none
deriving DecidableEq, Repr

/-- A validated tool invocation, one case per supported tool name, plus
the unknown-name case the dispatcher treats as session-fatal. -/
inductive ToolInvocation where
  | searchTool (query : String)
  | modifyChecklist (items : List UpsertRequest)
  | writeSubreport (item_id : String) (findings : String) (source_ids : List String)
  | finishTool (final_report : String)
  | unknownTool (name : String)
deriving DecidableEq, Repr

/-- Outcome of one tool dispatch: a successful tool-result message body,
a recoverable error surfaced as an error tool-result message, or a
session-fatal dispatcher fault. -/
inductive ToolOutcome where
  | ok (content : String)
  | errorRes (message : String)
  | fatalRes (message : String)
deriving DecidableEq, Repr

/-- True on the success outcome. -/
def isOkOutcome : ToolOutcome → Bool
  | ToolOutcome.ok _ => true
  | _ => false

/-- Modelled from the spec: the Tool Dispatcher.  Executes one validated
tool invocation against the session state and returns the new state, the
tool outcome, and the events published for the mutation: a
checklist_updated event with the full snapshot after any checklist
mutation, a source_discovered event with only the net-new list after new
sources are registered.  Handler errors become error outcomes, never
exceptions; only an unknown tool name is fatal. -/
def dispatchTool (searchFn : String → List Doc) (st : SessionState) :
    ToolInvocation → SessionState × ToolOutcome × List (String × EventData)
  | ToolInvocation.searchTool q =>
    let r := Ledger.register normalizeUrl st.ledger (searchFn q)
    let events : List (String × EventData) :=
      if r.2.2.isEmpty then [] else [("source_discovered", { sources := r.2.2 })]
    ({ st with ledger := r.2.1 },
     ToolOutcome.ok ("results: " ++ String.intercalate ", " r.1),
     events)
  | ToolInvocation.modifyChecklist items =>
    match applyUpserts st.checklist items with
    | Except.ok cs2 =>
      ({ st with checklist := cs2 },
       ToolOutcome.ok "checklist updated",
       [("checklist_updated", { items := cs2.items })])
    | Except.error e => (st, ToolOutcome.errorRes e, [])
  | ToolInvocation.writeSubreport item_id findings source_ids =>
    match st.checklist.upsert (some item_id) none (some Status.completed)
        (some findings) (some source_ids) with
    | Except.ok cs2 =>
      ({ st with checklist := cs2 },
       ToolOutcome.ok "subreport recorded",
       [("checklist_updated", { items := cs2.items })])
    | Except.error e => (st, ToolOutcome.errorRes e, [])
  | ToolInvocation.finishTool r =>
    if st.finished then (st, ToolOutcome.errorRes "AlreadyFinishedError", [])
    else ({ st with finished := true, finalReport := some r }, ToolOutcome.ok "finished", [])
  | ToolInvocation.unknownTool nm =>
    (st, ToolOutcome.fatalRes ("unknown tool: " ++ nm), [])

/-- Tool-result message paired to its invocation id. -/
def toolResultMsg (cid : String) (toolName : String) (outcome : ToolOutcome) : Message :=
  { role := "tool",
    name := some toolName,
    tool_call_id := some cid,
    content :=
      some (match outcome with
            | ToolOutcome.ok c => c
            | ToolOutcome.errorRes m => "error: " ++ m
            | ToolOutcome.fatalRes m => "error: " ++ m) }

/-- Name of a tool invocation, for the transcript record. -/
def toolName : ToolInvocation → String
  | ToolInvocation.searchTool _ => "search"
  | ToolInvocation.modifyChecklist _ => "modify_checklist"
  | ToolInvocation.writeSubreport _ _ _ => "write_subreport"
  | ToolInvocation.finishTool _ => "finish"
  | ToolInvocation.unknownTool nm => nm

/-- Modelled from the spec: dispatch every proposed tool call in
proposal order, appending each tool-result message right after the
assistant turn; the boolean reports whether a session-fatal fault
occurred, which stops the batch. -/
def dispatchAll (searchFn : String → List Doc) :
    SessionState → List (String × ToolInvocation) → SessionState × Bool
  | st, [] => (st, false)
  | st, (cid, tc) :: rest =>
    let r := dispatchTool searchFn st tc
    let st2 := { r.1 with messages := r.1.messages ++ [toolResultMsg cid (toolName tc) r.2.1] }
    match r.2.1 with
    | ToolOutcome.fatalRes _ => (st2, true)
    | _ => dispatchAll searchFn st2 rest

/-- One model response: either a plain terminal message or a list of
proposed tool calls with their invocation ids. -/
inductive ModelResponse where
  | textMsg (content : String)
  | toolCalls (calls : List (String × ToolInvocation))
deriving Repr

/-- States of the orchestration loop state machine. -/
inductive LoopStatus where
  | PLANNING
  | ACTING
  | FINISHED
  | ABORTED
deriving DecidableEq, Repr

/-- Modelled from the spec: best-effort synthesis of a report from
whatever checklist findings exist; never empty because of its fixed
heading. -/
def synthesizeReport (st : SessionState) : String :=
  "Best-effort report from partial findings: " ++
    String.intercalate "\n" (st.checklist.items.map (fun p => p.2.findings.getD ""))

/-- Modelled from the spec: the report returned on an ABORTED exit: the
report set by finish when there is a non-empty one, otherwise the
best-effort synthesis, so exhaustion never returns an empty result. -/
def bestEffortReport (st : SessionState) : String :=
  match st.finalReport with
  | some r => if r = "" then synthesizeReport st else r
  | none => synthesizeReport st

/-- The assistant message recording a batch of proposed tool calls. -/
def proposeMsg (calls : List (String × ToolInvocation)) : Message :=
  { role := "assistant",
    tool_calls := some (calls.map (fun c =>
      { id := c.1, function_name := toolName c.2, function_arguments := "" })) }

/-- Start of one loop cycle: the iteration counter is incremented. -/
def cycleStart (st : SessionState) : SessionState :=
  { st with iterations := st.iterations + 1 }

/-- One cycle of tool handling: record the assistant proposal message,
then dispatch every proposed call in order. -/
def afterDispatch (searchFn : String → List Doc) (st : SessionState)
    (calls : List (String × ToolInvocation)) : SessionState × Bool :=
  dispatchAll searchFn
    { cycleStart st with
        messages := (cycleStart st).messages ++ [proposeMsg calls] } calls

/-- Modelled from the spec: the orchestration loop, with the remaining
iteration budget as explicit fuel.  Each cycle increments the iteration
counter and invokes the model on the transcript; a response without tool
calls finishes with its content as report when none was set; tool calls
are dispatched in order, a fatal fault or exhaustion aborts with a
best-effort report, a set terminal flag finishes. -/
def loopAux (model : List Message → ModelResponse) (searchFn : String → List Doc) :
    Nat → SessionState → SessionState × LoopStatus
  | 0, st =>
    ({ st with finalReport := some (bestEffortReport st) }, LoopStatus.ABORTED)
  | n + 1, st =>
    match model (cycleStart st).messages with
    | ModelResponse.textMsg content =>
      ({ cycleStart st with
          messages := (cycleStart st).messages ++
            [{ role := "assistant", content := some content }],
          finished := true,
          finalReport := some ((cycleStart st).finalReport.getD content) },
       LoopStatus.FINISHED)
    | ModelResponse.toolCalls calls =>
      if (afterDispatch searchFn st calls).2 then
        ({ (afterDispatch searchFn st calls).1 with
            finalReport := some (bestEffortReport (afterDispatch searchFn st calls).1) },
         LoopStatus.ABORTED)
      else if (afterDispatch searchFn st calls).1.finished then
        ((afterDispatch searchFn st calls).1, LoopStatus.FINISHED)
      else loopAux model searchFn n (afterDispatch searchFn st calls).1

/-- Initial session state for a query. -/
def initState (query : String) : SessionState :=
  { messages := [{ role := "user", content := some query }] }

/-- Modelled from the spec: run one research session with the given
model behavior, search collaborator and iteration bound. -/
def runSession (model : List Message → ModelResponse) (searchFn : String → List Doc)
    (maxIter : Nat) (query : String) : SessionState × LoopStatus :=
  loopAux model searchFn maxIter (initState query)

/-- The monotone-evolution relation between two checklists that the
checklist monotonicity claim asserts: every item survives, a completed
status never reverts, and recorded findings are never overwritten. -/
def ChecklistMono (a b : Checklist) : Prop :=
  ∀ id o, lookupItem a id = some o →
    ∃ n, lookupItem b id = some n ∧
      (o.status = Status.completed → n.status = Status.completed) ∧
      (∀ f, o.findings = some f → n.findings = some f)

/-- A concrete completed checklist item used by the witnesses. -/
def sampleItem : ChecklistItem :=
  { id := "item_1", question := "Q", status := Status.completed,
    findings := some "F", source_ids := ["1"] }

/-- A concrete checklist used by the witnesses. -/
def sampleChecklist : Checklist := [("item_1", sampleItem)]

/-- A concrete source used by the witnesses. -/
def sampleSource : Source := { id := "1", url := "u", title := "t", content := "c" }

/-- A concrete transcript used by the witnesses. -/
def sampleMessages : List Message := [{ role := "assistant", content := some "done [1]" }]

/-- A concrete complete-event payload used by the witnesses. -/
def sampleComplete : EventData :=
  { messages := some sampleMessages,
    context := some { checklist := some sampleChecklist, sources := some [sampleSource] } }

/-- A concrete synchronous response body used by the witnesses. -/
def sampleResponse : ResponseData :=
  { messages := sampleMessages, checklist := sampleChecklist,
    sources := [sampleSource], final_report := some "done [1]" }

/-- A concrete event stream used by the witnesses. -/
def sampleStream : List (String × EventData) :=
  [("final_report", { report := "done [1]" }), ("complete", sampleComplete)]

theorem foldEvents_cons (s : ClientState) (e : String × EventData)
    (evs : List (String × EventData)) :
    foldEvents s (e :: evs) = foldEvents (handleStreamEvent e.1 e.2 s) evs := rfl

theorem foldEvents_append (s : ClientState) (a b : List (String × EventData)) :
    foldEvents s (a ++ b) = foldEvents (foldEvents s a) b := by
  simp [foldEvents, List.foldl_append]

theorem hse_finalReport_of_ne (t : String) (d : EventData) (s : ClientState)
    (h : t ≠ "final_report") :
    (handleStreamEvent t d s).finalReport = s.finalReport := by
  unfold handleStreamEvent
  split_ifs <;> simp_all

theorem hse_sources_of_ne (t : String) (d : EventData) (s : ClientState)
    (h1 : t ≠ "source_discovered") (h2 : t ≠ "complete") :
    (handleStreamEvent t d s).sources = s.sources := by
  unfold handleStreamEvent
  split_ifs <;> simp_all

theorem foldEvents_finalReport (evs : List (String × EventData)) :
    ∀ s : ClientState,
      (foldEvents s evs).finalReport
        = (evs.filter (fun e => e.1 == "final_report")).foldl
            (fun _ e => some e.2.report) s.finalReport := by
  induction evs with
  | nil => intro s; rfl
  | cons e evs ih =>
    intro s
    rw [foldEvents_cons, ih]
    by_cases he : e.1 = "final_report"
    · rw [List.filter_cons_of_pos (by simp [he])]
      simp only [List.foldl_cons]
      congr 1
      rw [he]
      simp [handleStreamEvent]
    · rw [List.filter_cons_of_neg (by simp [he])]
      congr 1
      exact hse_finalReport_of_ne e.1 e.2 s he

theorem foldEvents_sources (evs : List (String × EventData)) :
    ∀ s : ClientState, (∀ e ∈ evs, e.1 ≠ "complete") →
      (foldEvents s evs).sources
        = s.sources ++
            ((evs.filter (fun e => e.1 == "source_discovered")).map
              (fun e => e.2.sources)).flatten := by
  induction evs with
  | nil => intro s _; simp [foldEvents]
  | cons e evs ih =>
    intro s h
    rw [foldEvents_cons, ih _ (fun x hx => h x (List.mem_cons_of_mem _ hx))]
    by_cases he : e.1 = "source_discovered"
    · have hs : (handleStreamEvent e.1 e.2 s).sources = s.sources ++ e.2.sources := by
        rw [he]; simp [handleStreamEvent]
      rw [hs, List.filter_cons_of_pos (by simp [he])]
      simp
    · have hs : (handleStreamEvent e.1 e.2 s).sources = s.sources :=
        hse_sources_of_ne e.1 e.2 s he (h e (List.mem_cons_self _ _))
      rw [hs, List.filter_cons_of_neg (by simp [he])]

/-- Claim C6: a checklist_updated event published by the dispatcher
carries the full checklist snapshot of the state after the mutation, and
the streaming client replaces its entire checklist with the payload
wholesale, regardless of prior client state. -/
theorem C6_checklist_snapshot_replacement (f : String → List Doc) (st : SessionState)
    (tc : ToolInvocation) (d : EventData) :
    (("checklist_updated", d) ∈ (dispatchTool f st tc).2.2 →
      d.items = (dispatchTool f st tc).1.checklist.items)
    ∧ (∀ s : ClientState, (handleStreamEvent "checklist_updated" d s).checklist = d.items) := by
  constructor
  · intro hmem
    cases tc with
    | searchTool q =>
      simp only [dispatchTool] at hmem
      split at hmem <;> simp_all
    | modifyChecklist items =>
      cases h : applyUpserts st.checklist items with
      | ok cs2 => simp [dispatchTool, h] at hmem ⊢; simp [hmem]
      | error e => simp [dispatchTool, h] at hmem
    | writeSubreport a b c =>
      cases h : st.checklist.upsert (some a) none (some Status.completed) (some b) (some c) with
      | ok cs2 => simp [dispatchTool, h] at hmem ⊢; simp [hmem]
      | error e => simp [dispatchTool, h] at hmem
    | finishTool r =>
      simp only [dispatchTool] at hmem
      split at hmem <;> simp_all
    | unknownTool nm => simp [dispatchTool] at hmem
  · intro s; simp [handleStreamEvent]

/-- Claim C6 witness at a concrete modify_checklist dispatch. -/
theorem C6_witness :
    ({ items := [("item_1",
        { id := "item_1", question := "Q", status := Status.pending })] } : EventData).items
      = (dispatchTool (fun _ => []) {}
          (ToolInvocation.modifyChecklist [{ question := some "Q" }])).1.checklist.items
    ∧ (handleStreamEvent "checklist_updated"
        { items := [("item_1", { id := "item_1", question := "Q", status := Status.pending })] }
        {}).checklist
      = [("item_1", { id := "item_1", question := "Q", status := Status.pending })] := by
  constructor
  · exact (C6_checklist_snapshot_replacement (fun _ => []) {}
      (ToolInvocation.modifyChecklist [{ question := some "Q" }]) _).1 (by decide)
  · exact (C6_checklist_snapshot_replacement (fun _ => []) {}
      (ToolInvocation.modifyChecklist [{ question := some "Q" }]) _).2 {}

/-- Claim C8: the complete handler sets the messages from the payload
with an empty default, replaces checklist and sources only when present
in the payload context, and leaves the final report unchanged; hence a
stream without a final_report event ends with a null report. -/
theorem C8_complete_frame (d : EventData) (s s0 : ClientState)
    (evs : List (String × EventData)) :
    ((handleStreamEvent "complete" d s).messages = d.messages.getD [])
    ∧ ((handleStreamEvent "complete" d s).finalReport = s.finalReport)
    ∧ ((handleStreamEvent "complete" d s).checklist = contextChecklist d s.checklist)
    ∧ ((handleStreamEvent "complete" d s).sources = contextSources d s.sources)
    ∧ ((∀ e ∈ evs, e.1 ≠ "final_report") →
        (foldEvents (streamInit s0) evs).finalReport = none) := by
  refine ⟨by simp [handleStreamEvent], by simp [handleStreamEvent],
    by simp [handleStreamEvent], by simp [handleStreamEvent], ?_⟩
  intro h
  rw [foldEvents_finalReport]
  have hnil : evs.filter (fun e => e.1 == "final_report") = [] := by
    rw [List.filter_eq_nil_iff]
    intro a ha
    simpa using h a ha
  rw [hnil]
  rfl

/-- Claim C8 witness: a complete event without context, after a stream
containing no final_report event. -/
theorem C8_witness :
    ((handleStreamEvent "complete" { messages := some [] } {}).messages = [])
    ∧ (foldEvents (streamInit {})
        [("source_discovered", {}), ("complete", { messages := some [] })]).finalReport
      = none := by
  constructor
  · exact (C8_complete_frame { messages := some [] } {} {} []).1
  · exact (C8_complete_frame { messages := some [] } {} {}
      [("source_discovered", {}), ("complete", { messages := some [] })]).2.2.2.2
      (by decide)

/-- Claim C9: an event line stores its trimmed name as the type of
exactly the next data line, the type resets to unknown after each
dispatched data line, and dispatching a payload whose event type is not
one of the eight handled names leaves the client state unchanged. -/
theorem C9_sse_line_discipline (parse : String → Option EventData) (line : String)
    (ct : String) (s : ClientState) (d : EventData) :
    (strStartsWith line "event:" = true →
      processLine parse line (ct, s) = (strTrim (strDrop line 6), s))
    ∧ (strStartsWith line "event:" = false → strStartsWith line "data:" = true →
        parse (strTrim (strDrop line 5)) = some d →
        processLine parse line (ct, s) = ("unknown", handleStreamEvent ct d s))
    ∧ (ct ∉ handledEventTypes → handleStreamEvent ct d s = s) := by
  refine ⟨?_, ?_, ?_⟩
  · intro h; simp [processLine, h]
  · intro h1 h2 hp; simp [processLine, h1, h2, hp]
  · intro h
    simp only [handledEventTypes, List.mem_cons, List.not_mem_nil, or_false, not_or] at h
    obtain ⟨h1, h2, h3, h4, h5, h6, h7, h8⟩ := h
    unfold handleStreamEvent
    rw [if_neg h1, if_neg h2, if_neg h3, if_neg h4, if_neg h5, if_neg h6, if_neg h7, if_neg h8]

/-- Claim C9 witness at concrete lines and a concrete unhandled type. -/
theorem C9_witness :
    (processLine (fun _ => some {}) "event: final_report" ("unknown", ({} : ClientState))
      = ("final_report", ({} : ClientState)))
    ∧ (processLine (fun _ => some {}) "data: x" ("final_report", ({} : ClientState))
        = ("unknown", handleStreamEvent "final_report" {} {}))
    ∧ (handleStreamEvent "bogus_event" {} {} = ({} : ClientState)) := by
  refine ⟨?_, ?_, ?_⟩
  · have h := (C9_sse_line_discipline (fun _ => some {}) "event: final_report"
      "unknown" {} {}).1 (by decide)
    simpa using h
  · have h := (C9_sse_line_discipline (fun _ => some {}) "data: x"
      "final_report" {} {}).2.1 (by decide) (by decide) rfl
    simpa using h
  · exact (C9_sse_line_discipline (fun _ => some {}) "" "bogus_event" {} {}).2.2 (by decide)

/-- Claim C10: while no complete event has arrived, the client source
list is the concatenation, in arrival order, of the payload lists of all
source_discovered events since the submission reset; no client-side
deduplication happens, so a source announced twice appears twice. -/
theorem C10_sources_concatenation (s0 : ClientState) (evs : List (String × EventData))
    (h : ∀ e ∈ evs, e.1 ≠ "complete") :
    (foldEvents (streamInit s0) evs).sources
      = ((evs.filter (fun e => e.1 == "source_discovered")).map
          (fun e => e.2.sources)).flatten := by
  have hfold := foldEvents_sources evs (streamInit s0) h
  simpa using hfold

/-- Claim C10 witness: the same source announced in two events appears
twice in the client list. -/
theorem C10_witness :
    (foldEvents (streamInit {})
      [("source_discovered",
         { sources := [{ id := "1", url := "u", title := "t", content := "c" }] }),
       ("agent_reasoning", { content := "r" }),
       ("source_discovered",
         { sources := [{ id := "1", url := "u", title := "t", content := "c" }] })]).sources
    = [{ id := "1", url := "u", title := "t", content := "c" },
       { id := "1", url := "u", title := "t", content := "c" }] := by
  have h := C10_sources_concatenation {}
    [("source_discovered",
       { sources := [{ id := "1", url := "u", title := "t", content := "c" }] }),
     ("agent_reasoning", { content := "r" }),
     ("source_discovered",
       { sources := [{ id := "1", url := "u", title := "t", content := "c" }] })]
    (by decide)
  simpa using h

/-- Claim C1: streaming and non-streaming submissions are observably
equivalent in final state: for any event stream whose terminal complete
event carries the same messages, checklist and sources as the
synchronous response body, and whose single final_report event carries
the same report as that body, folding handleStreamEvent over the stream
after the submission reset ends with the same checklist, sources and
final report as handleSubmitNonStreaming applied to the body, from any
prior client states. -/
theorem C1_streaming_batch_equivalence (s0 s1 : ClientState)
    (evs : List (String × EventData)) (dc : EventData)
    (m : List Message) (c : Checklist) (src : List Source) (r : String)
    (resp : ResponseData)
    (hctx : dc.context = some { checklist := some c, sources := some src })
    (hfr : (evs.filter (fun e => e.1 == "final_report")).map (fun e => e.2.report) = [r])
    (hresp : resp = { messages := m, checklist := c, sources := src, final_report := some r }) :
    (foldEvents (streamInit s0) (evs ++ [("complete", dc)])).checklist
      = (handleSubmitNonStreaming resp s1).checklist
    ∧ (foldEvents (streamInit s0) (evs ++ [("complete", dc)])).sources
      = (handleSubmitNonStreaming resp s1).sources
    ∧ (foldEvents (streamInit s0) (evs ++ [("complete", dc)])).finalReport
      = (handleSubmitNonStreaming resp s1).finalReport := by
  subst hresp
  have hsplit : foldEvents (streamInit s0) (evs ++ [("complete", dc)])
      = handleStreamEvent "complete" dc (foldEvents (streamInit s0) evs) := by
    rw [foldEvents_append]; rfl
  refine ⟨?_, ?_, ?_⟩
  · rw [hsplit]
    simp [handleStreamEvent, contextChecklist, hctx, handleSubmitNonStreaming]
  · rw [hsplit]
    simp [handleStreamEvent, contextSources, hctx, handleSubmitNonStreaming]
  · rw [hsplit]
    have h1 : (handleStreamEvent "complete" dc (foldEvents (streamInit s0) evs)).finalReport
        = (foldEvents (streamInit s0) evs).finalReport := by
      simp [handleStreamEvent]
    rw [h1, foldEvents_finalReport]
    rcases hfe : evs.filter (fun e => e.1 == "final_report") with _ | ⟨x, tail⟩
    · rw [hfe] at hfr; simp at hfr
    · rw [hfe] at hfr
      simp only [List.map_cons, List.cons.injEq] at hfr
      obtain ⟨hx, ht⟩ := hfr
      have htail : tail = [] := List.map_eq_nil_iff.mp ht
      subst htail
      rw [hfe]
      simp [hx, handleSubmitNonStreaming]

/-- Claim C1 witness at a concrete stream and matching response body. -/
theorem C1_witness :
    (foldEvents (streamInit {}) sampleStream).checklist
      = (handleSubmitNonStreaming sampleResponse {}).checklist
    ∧ (foldEvents (streamInit {}) sampleStream).sources
      = (handleSubmitNonStreaming sampleResponse {}).sources
    ∧ (foldEvents (streamInit {}) sampleStream).finalReport
      = (handleSubmitNonStreaming sampleResponse {}).finalReport := by
  have h := C1_streaming_batch_equivalence {} {}
    [("final_report", { report := "done [1]" })] sampleComplete
    sampleMessages sampleChecklist [sampleSource] "done [1]" sampleResponse
    rfl (by decide) rfl
  simpa [sampleStream] using h

theorem registerOne_sources (norm : String → String) (st : Ledger) (d : Doc) :
    (st.registerOne norm d).2.1.sources
      = st.sources ++
          (match (st.registerOne norm d).2.2 with | some s => [s] | none => []) := by
  unfold Ledger.registerOne
  cases h : st.sources.find? (fun s => norm s.url == norm d.url) <;> simp [h]

theorem registerOne_fresh (norm : String → String) (st : Ledger) (d : Doc) (s : Source)
    (h : (st.registerOne norm d).2.2 = some s) :
    (∀ old ∈ st.sources, norm old.url ≠ norm s.url) ∧ s.url = d.url := by
  unfold Ledger.registerOne at h
  cases hf : st.sources.find? (fun q => norm q.url == norm d.url) with
  | some q => simp [hf] at h
  | none =>
    simp [hf] at h
    constructor
    · intro old hold heq
      have := List.find?_eq_none.mp hf old hold
      rw [← h] at heq
      simp [heq] at this
    · rw [← h]

theorem register_length (norm : String → String) (docs : List Doc) :
    ∀ st : Ledger, (Ledger.register norm st docs).1.length = docs.length := by
  induction docs with
  | nil => intro st; rfl
  | cons d ds ih => intro st; simp [Ledger.register, ih]

theorem register_sources_append (norm : String → String) (docs : List Doc) :
    ∀ st : Ledger,
      (Ledger.register norm st docs).2.1.sources
        = st.sources ++ (Ledger.register norm st docs).2.2 := by
  induction docs with
  | nil => intro st; simp [Ledger.register]
  | cons d ds ih =>
    intro st
    simp only [Ledger.register]
    rw [ih, registerOne_sources norm st d, List.append_assoc]

theorem register_net_new_fresh (norm : String → String) (docs : List Doc) :
    ∀ st : Ledger, ∀ s ∈ (Ledger.register norm st docs).2.2,
      ∀ old ∈ st.sources, norm old.url ≠ norm s.url := by
  induction docs with
  | nil => intro st s hs; simp [Ledger.register] at hs
  | cons d ds ih =>
    intro st s hs old hold
    simp only [Ledger.register, List.mem_append] at hs
    rcases hs with hs | hs
    · cases hn : (st.registerOne norm d).2.2 with
      | none => simp [hn] at hs
      | some s2 =>
        simp [hn] at hs
        rw [hs]
        exact (registerOne_fresh norm st d s2 hn).1 old hold
    · have hsub : old ∈ (st.registerOne norm d).2.1.sources := by
        rw [registerOne_sources norm st d]
        exact List.mem_append_left _ hold
      exact ih (st.registerOne norm d).2.1 s hs old hsub

theorem register_twice_same (norm : String → String) (st : Ledger) (d : Doc) :
    Ledger.register norm (Ledger.register norm st [d]).2.1 [d]
      = ((Ledger.register norm st [d]).1,
         (Ledger.register norm st [d]).2.1, ([] : List Source)) := by
  cases hf : st.sources.find? (fun s => norm s.url == norm d.url) with
  | some q =>
    simp [Ledger.register, Ledger.registerOne, hf]
  | none =>
    simp [Ledger.register, Ledger.registerOne, hf]

/-- Claim C4: registering documents returns one id per input in input
order; the visible sequence is extended only by the net-new list, which
never re-announces a source whose normalized URL the ledger already
holds; and registering the same URL twice yields the same id, the same
ledger, and an empty net-new list the second time. -/
theorem C4_source_ledger_stability (norm : String → String) (st : Ledger)
    (docs : List Doc) :
    ((Ledger.register norm st docs).1.length = docs.length)
    ∧ ((Ledger.register norm st docs).2.1.sources
        = st.sources ++ (Ledger.register norm st docs).2.2)
    ∧ (∀ s ∈ (Ledger.register norm st docs).2.2,
        ∀ old ∈ st.sources, norm old.url ≠ norm s.url)
    ∧ (∀ d : Doc,
        Ledger.register norm (Ledger.register norm st [d]).2.1 [d]
          = ((Ledger.register norm st [d]).1,
             (Ledger.register norm st [d]).2.1, ([] : List Source))) :=
  ⟨register_length norm docs st, register_sources_append norm docs st,
   register_net_new_fresh norm docs st, fun d => register_twice_same norm st d⟩

/-- Claim C4 witness at a concrete ledger and document batch. -/
theorem C4_witness :
    ((Ledger.register (fun u => u) { sources := [sampleSource], nextId := 2 }
        [{ url := "w", title := "tw", content := "cw" }]).1.length
      = [({ url := "w", title := "tw", content := "cw" } : Doc)].length)
    ∧ ((Ledger.register (fun u => u) { sources := [sampleSource], nextId := 2 }
          [{ url := "w", title := "tw", content := "cw" }]).2.1.sources
        = [sampleSource] ++
            (Ledger.register (fun u => u) { sources := [sampleSource], nextId := 2 }
              [{ url := "w", title := "tw", content := "cw" }]).2.2)
    ∧ (sampleSource.url ≠ ({ id := "2", url := "w", title := "tw", content := "cw" } : Source).url)
    ∧ (Ledger.register (fun u => u)
        (Ledger.register (fun u => u) { sources := [sampleSource], nextId := 2 }
          [{ url := "w", title := "tw", content := "cw" }]).2.1
        [{ url := "w", title := "tw", content := "cw" }]
        = ((Ledger.register (fun u => u) { sources := [sampleSource], nextId := 2 }
            [{ url := "w", title := "tw", content := "cw" }]).1,
           (Ledger.register (fun u => u) { sources := [sampleSource], nextId := 2 }
            [{ url := "w", title := "tw", content := "cw" }]).2.1, ([] : List Source))) := by
  refine ⟨(C4_source_ledger_stability (fun u => u) { sources := [sampleSource], nextId := 2 }
      [{ url := "w", title := "tw", content := "cw" }]).1,
    (C4_source_ledger_stability (fun u => u) { sources := [sampleSource], nextId := 2 }
      [{ url := "w", title := "tw", content := "cw" }]).2.1, ?_,
    (C4_source_ledger_stability (fun u => u) { sources := [sampleSource], nextId := 2 }
      [{ url := "w", title := "tw", content := "cw" }]).2.2.2
      { url := "w", title := "tw", content := "cw" }⟩
  exact (C4_source_ledger_stability (fun u => u) { sources := [sampleSource], nextId := 2 }
      [{ url := "w", title := "tw", content := "cw" }]).2.2.1
    { id := "2", url := "w", title := "tw", content := "cw" } (by decide)
    sampleSource (by decide)

theorem checklistMono_refl (a : Checklist) : ChecklistMono a a := by
  intro id o h
  exact ⟨o, h, fun hc => hc, fun f hf => hf⟩

theorem checklistMono_trans {a b c : Checklist}
    (h1 : ChecklistMono a b) (h2 : ChecklistMono b c) : ChecklistMono a c := by
  intro id o h
  obtain ⟨n1, hn1, hs1, hf1⟩ := h1 id o h
  obtain ⟨n2, hn2, hs2, hf2⟩ := h2 id n1 hn1
  exact ⟨n2, hn2, fun hc => hs2 (hs1 hc), fun f hf => hf2 f (hf1 f hf)⟩

theorem upsertItem_status_completed (old : ChecklistItem) (q : Option String)
    (s : Option Status) (f : Option String) (si : Option (List String))
    (h : old.status = Status.completed) :
    (upsertItem old q s f si).status = Status.completed := by
  simp [upsertItem, h]

theorem upsertItem_findings_kept (old : ChecklistItem) (q : Option String)
    (s : Option Status) (f : Option String) (si : Option (List String))
    (g : String) (h : old.findings = some g) :
    (upsertItem old q s f si).findings = some g := by
  simp [upsertItem, h]

theorem lookupItem_append_left (items extra : Checklist) (id : String)
    (o : ChecklistItem) (h : lookupItem items id = some o) :
    lookupItem (items ++ extra) id = some o := by
  unfold lookupItem at h ⊢
  obtain ⟨p, hp, hpo⟩ := Option.map_eq_some'.mp h
  rw [List.find?_append, hp]
  simp [hpo]

theorem find?_map_keyed (k : String) (f : ChecklistItem → ChecklistItem) :
    ∀ (t : Checklist) (id : String),
      (t.map (fun p => if p.1 == k then (p.1, f p.2) else p)).find? (fun p => p.1 == id)
        = (t.find? (fun p => p.1 == id)).map
            (fun p => if p.1 == k then (p.1, f p.2) else p) := by
  intro t
  induction t with
  | nil => intro id; rfl
  | cons a t ih =>
    intro id
    have hb1 : (if a.1 == k then (a.1, f a.2) else a).1 = a.1 := by
      by_cases h : (a.1 == k) = true <;> simp [h]
    by_cases hid : (a.1 == id) = true
    · have hidb : ((if a.1 == k then (a.1, f a.2) else a).1 == id) = true := by
        rw [hb1]; exact hid
      rw [List.map_cons,
        @List.find?_cons_of_pos _ (fun (p : String × ChecklistItem) => p.1 == id) _ _ hidb,
        @List.find?_cons_of_pos _ (fun (p : String × ChecklistItem) => p.1 == id) _ _ hid]
      simp
    · have hidb : ¬((if a.1 == k then (a.1, f a.2) else a).1 == id) = true := by
        rw [hb1]; exact hid
      rw [List.map_cons,
        @List.find?_cons_of_neg _ (fun (p : String × ChecklistItem) => p.1 == id) _ _ hidb,
        @List.find?_cons_of_neg _ (fun (p : String × ChecklistItem) => p.1 == id) _ _ hid]
      exact ih id

theorem upsert_mono (st : ChecklistStore) (item_id : Option String)
    (q : Option String) (s : Option Status) (f : Option String)
    (si : Option (List String)) (st2 : ChecklistStore)
    (h : st.upsert item_id q s f si = Except.ok st2) :
    ChecklistMono st.items st2.items := by
  cases item_id with
  | none =>
    simp only [ChecklistStore.upsert, Except.ok.injEq] at h
    intro id o ho
    refine ⟨o, ?_, fun hc => hc, fun g hg => hg⟩
    rw [← h]
    exact lookupItem_append_left _ _ _ _ ho
  | some k =>
    simp only [ChecklistStore.upsert] at h
    cases hl : lookupItem st.items k with
    | none => rw [hl] at h; exact absurd h (by simp)
    | some old =>
      rw [hl] at h
      simp only [Except.ok.injEq] at h
      intro id o ho
      obtain ⟨pair, hpair, hpo⟩ := Option.map_eq_some'.mp ho
      have hpredict := List.find?_some hpair
      have hpid : pair.1 = id := by simpa using hpredict
      rw [← h]
      have hfind : lookupItem
          (st.items.map (fun p =>
            if p.1 == k then (p.1, upsertItem old q s f si) else p)) id
          = some (if pair.1 == k then upsertItem old q s f si else pair.2) := by
        unfold lookupItem
        rw [find?_map_keyed k (fun _ => upsertItem old q s f si) st.items id, hpair]
        by_cases hpk : (pair.1 == k) = true
        · have hpk2 : pair.1 = k := by simpa using hpk
          simp [hpk, hpk2]
        · have hpk2 : ¬ pair.1 = k := by simpa using hpk
          simp [hpk, hpk2]
      by_cases hpk : (pair.1 == k) = true
      · have hkid : k = id := by
          have := (by simpa using hpk : pair.1 = k)
          rw [← this, hpid]
        have hoold : o = old := by
          have h1 : lookupItem st.items id = some old := by rw [← hkid]; exact hl
          rw [ho] at h1
          exact Option.some_inj.mp h1
        rw [hpk] at hfind
        simp only [if_pos rfl] at hfind
        refine ⟨upsertItem old q s f si, by simpa using hfind, ?_, ?_⟩
        · intro hc
          exact upsertItem_status_completed old q s f si (by rw [← hoold]; exact hc)
        · intro g hg
          exact upsertItem_findings_kept old q s f si g (by rw [← hoold]; exact hg)
      · rw [if_neg hpk] at hfind
        exact ⟨pair.2, hfind, by rw [hpo]; exact fun hc => hc,
          by rw [hpo]; exact fun g hg => hg⟩

theorem applyUpserts_mono (us : List UpsertRequest) :
    ∀ (cs cs2 : ChecklistStore), applyUpserts cs us = Except.ok cs2 →
      ChecklistMono cs.items cs2.items := by
  induction us with
  | nil =>
    intro cs cs2 h
    injection h with h
    rw [h]
    exact checklistMono_refl _
  | cons u us ih =>
    intro cs cs2 h
    unfold applyUpserts at h
    cases hu : cs.upsert u.item_id u.question u.status u.findings u.source_ids with
    | ok mid =>
      rw [hu] at h
      exact checklistMono_trans
        (upsert_mono cs u.item_id u.question u.status u.findings u.source_ids mid hu)
        (ih mid cs2 h)
    | error e => rw [hu] at h; exact absurd h (by simp)

/-- Claim C5: every operation dispatched against the session leaves the
checklist monotone: items never disappear, a completed status never
reverts to pending, and recorded findings are never overwritten. -/
theorem C5_checklist_monotonicity (f : String → List Doc) (st : SessionState)
    (tc : ToolInvocation) :
    ChecklistMono st.checklist.items (dispatchTool f st tc).1.checklist.items := by
  cases tc with
  | searchTool q => exact checklistMono_refl _
  | modifyChecklist items =>
    cases h : applyUpserts st.checklist items with
    | ok cs2 =>
      simp only [dispatchTool, h]
      exact applyUpserts_mono items st.checklist cs2 h
    | error e =>
      simp only [dispatchTool, h]
      exact checklistMono_refl _
  | writeSubreport a b c =>
    cases h : st.checklist.upsert (some a) none (some Status.completed) (some b) (some c) with
    | ok cs2 =>
      simp only [dispatchTool, h]
      exact upsert_mono st.checklist (some a) none (some Status.completed) (some b)
        (some c) cs2 h
    | error e =>
      simp only [dispatchTool, h]
      exact checklistMono_refl _
  | finishTool r =>
    by_cases h : st.finished <;> simp only [dispatchTool, h] <;>
      [exact checklistMono_refl _; exact checklistMono_refl _]
  | unknownTool nm => exact checklistMono_refl _

/-- Claim C5 witness: a completed item with findings survives a
further write_subreport against it, keeping status and findings. -/
theorem C5_witness :
    ∃ n, lookupItem (dispatchTool (fun _ => [])
        { checklist := { items := sampleChecklist, nextId := 2 } }
        (ToolInvocation.writeSubreport "item_1" "G" ["2"])).1.checklist.items "item_1"
      = some n
      ∧ (sampleItem.status = Status.completed → n.status = Status.completed)
      ∧ (∀ g, sampleItem.findings = some g → n.findings = some g) :=
  C5_checklist_monotonicity (fun _ => [])
    { checklist := { items := sampleChecklist, nextId := 2 } }
    (ToolInvocation.writeSubreport "item_1" "G" ["2"]) "item_1" sampleItem (by decide)

/-- Claim C7: the finish tool sets the terminal flag and the final
report exactly once: the first call on an unfinished session succeeds
and records the report; a second call returns an AlreadyFinishedError
tool error, publishes nothing, and leaves the whole session state
unchanged instead of crashing the loop. -/
theorem C7_finish_exactly_once (f : String → List Doc) (st : SessionState)
    (r r2 : String) (h : st.finished = false) :
    ((dispatchTool f st (ToolInvocation.finishTool r)).1.finished = true)
    ∧ ((dispatchTool f st (ToolInvocation.finishTool r)).1.finalReport = some r)
    ∧ (isOkOutcome (dispatchTool f st (ToolInvocation.finishTool r)).2.1 = true)
    ∧ (dispatchTool f ((dispatchTool f st (ToolInvocation.finishTool r)).1)
        (ToolInvocation.finishTool r2)
        = ((dispatchTool f st (ToolInvocation.finishTool r)).1,
           ToolOutcome.errorRes "AlreadyFinishedError",
           ([] : List (String × EventData)))) := by
  simp [dispatchTool, h, isOkOutcome]

/-- Claim C7 witness at a concrete fresh session. -/
theorem C7_witness :
    ((dispatchTool (fun _ => []) (initState "q") (ToolInvocation.finishTool "rep")).1.finished
      = true)
    ∧ ((dispatchTool (fun _ => []) (initState "q")
        (ToolInvocation.finishTool "rep")).1.finalReport = some "rep")
    ∧ (isOkOutcome (dispatchTool (fun _ => []) (initState "q")
        (ToolInvocation.finishTool "rep")).2.1 = true)
    ∧ (dispatchTool (fun _ => [])
        ((dispatchTool (fun _ => []) (initState "q") (ToolInvocation.finishTool "rep")).1)
        (ToolInvocation.finishTool "rep2")
        = ((dispatchTool (fun _ => []) (initState "q") (ToolInvocation.finishTool "rep")).1,
           ToolOutcome.errorRes "AlreadyFinishedError",
           ([] : List (String × EventData)))) :=
  C7_finish_exactly_once (fun _ => []) (initState "q") "rep" "rep2" rfl

theorem matchCite_some_shape (l ds rest : List Char)
    (h : matchCite l = some (ds, rest)) :
    l = '[' :: (ds ++ ']' :: rest) ∧ ds ≠ [] ∧ ∀ c ∈ ds, Char.isDigit c := by
  cases l with
  | nil => simp [matchCite] at h
  | cons c cs =>
    by_cases hc : c = '['
    · subst hc
      simp only [matchCite, if_pos] at h
      by_cases hde : (cs.takeWhile Char.isDigit).isEmpty = true
      · rw [if_pos hde] at h
        exact absurd h (by simp)
      · rw [if_neg hde] at h
        cases hdw : cs.dropWhile Char.isDigit with
        | nil =>
          rw [hdw] at h
          exact absurd h (by simp)
        | cons r after =>
          rw [hdw] at h
          simp only [] at h
          by_cases hr : r = ']'
          · rw [if_pos hr] at h
            simp only [Option.some.injEq, Prod.mk.injEq] at h
            obtain ⟨hds, hrest⟩ := h
            refine ⟨?_, ?_, ?_⟩
            · have hsplit := List.takeWhile_append_dropWhile Char.isDigit cs
              rw [hdw, hds, hr, hrest] at hsplit
              rw [← hsplit]
            · intro hnil
              rw [← hds] at hnil
              rw [hnil] at hde
              simp at hde
            · intro x hx
              rw [← hds] at hx
              exact List.mem_takeWhile_imp hx
          · rw [if_neg hr] at h
            exact absurd h (by simp)
    · simp [matchCite, hc] at h

theorem matchCite_of_shape (ds rest : List Char) (hne : ds ≠ [])
    (hdig : ∀ c ∈ ds, Char.isDigit c) :
    matchCite ('[' :: (ds ++ ']' :: rest)) = some (ds, rest) := by
  have ht : (ds ++ ']' :: rest).takeWhile Char.isDigit = ds := by
    rw [List.takeWhile_append_of_pos hdig,
      List.takeWhile_cons_of_neg (by decide), List.append_nil]
  have hd : (ds ++ ']' :: rest).dropWhile Char.isDigit = ']' :: rest := by
    rw [List.dropWhile_append_of_pos hdig, List.dropWhile_cons_of_neg (by decide)]
  have hemp : (ds ++ ']' :: rest).takeWhile Char.isDigit ≠ [] := by
    rw [ht]; exact hne
  simp [matchCite, ht, hd, hemp, hne]

theorem matchCite_singleton (c : Char) : matchCite [c] = none := by
  by_cases hc : c = '[' <;> simp [matchCite, hc]

theorem matchCite_some_shorter (l ds rest : List Char)
    (h : matchCite l = some (ds, rest)) : rest.length + 2 ≤ l.length := by
  obtain ⟨hshape, -, -⟩ := matchCite_some_shape l ds rest h
  rw [hshape]
  simp only [List.length_cons, List.length_append]
  omega

theorem consText_flatten (c : Char) (ns : List CNode) :
    flattenNodes (consText c ns) = c :: flattenNodes ns := by
  cases ns with
  | nil => rfl
  | cons n ns2 =>
    cases n with
    | text t => rfl
    | cite ds => rfl

theorem scan_flatten : ∀ (fuel : Nat) (l : List Char), l.length ≤ fuel →
    flattenNodes (scanCitesAux fuel l) = l := by
  intro fuel
  induction fuel with
  | zero =>
    intro l hl
    have hnil : l = [] := List.length_eq_zero.mp (Nat.le_zero.mp hl)
    subst hnil
    rfl
  | succ n ih =>
    intro l hl
    cases l with
    | nil => rfl
    | cons c cs =>
      cases hm : matchCite (c :: cs) with
      | some pr =>
        obtain ⟨ds, rest⟩ := pr
        obtain ⟨hshape, -, -⟩ := matchCite_some_shape _ _ _ hm
        have hlen := matchCite_some_shorter _ _ _ hm
        simp only [scanCitesAux, hm, flattenNodes]
        rw [ih rest (by simp at hlen hl; omega)]
        exact hshape.symm
      | none =>
        simp only [scanCitesAux, hm]
        rw [consText_flatten, ih cs (by simp at hl; omega)]

theorem scan_cite_digits : ∀ (fuel : Nat) (l ds : List Char),
    CNode.cite ds ∈ scanCitesAux fuel l → ds ≠ [] ∧ ∀ c ∈ ds, Char.isDigit c := by
  intro fuel
  induction fuel with
  | zero => intro l ds h; simp [scanCitesAux] at h
  | succ n ih =>
    intro l ds h
    cases l with
    | nil => simp [scanCitesAux] at h
    | cons c cs =>
      cases hm : matchCite (c :: cs) with
      | some pr =>
        obtain ⟨ds2, rest⟩ := pr
        simp only [scanCitesAux, hm, List.mem_cons] at h
        rcases h with h | h
        · obtain ⟨-, hne, hdig⟩ := matchCite_some_shape _ _ _ hm
          simp only [CNode.cite.injEq] at h
          rw [h]
          exact ⟨hne, hdig⟩
        · exact ih rest ds h
      | none =>
        simp only [scanCitesAux, hm] at h
        cases hns : scanCitesAux n cs with
        | nil => rw [hns] at h; simp [consText] at h
        | cons n0 ns2 =>
          rw [hns] at h
          cases n0 with
          | text t0 =>
            simp only [consText, List.mem_cons] at h
            rcases h with h | h
            · simp at h
            · exact ih cs ds (by rw [hns]; exact List.mem_cons_of_mem _ h)
          | cite ds0 =>
            simp only [consText, List.mem_cons] at h
            rcases h with h | h | h
            · simp at h
            · exact ih cs ds (by rw [hns]; exact List.mem_cons.mpr (Or.inl h))
            · exact ih cs ds (by rw [hns]; exact List.mem_cons.mpr (Or.inr h))

theorem scan_text_head_prefix : ∀ (fuel : Nat) (l t : List Char) (ns2 : List CNode),
    scanCitesAux fuel l = CNode.text t :: ns2 → ∃ r, t ++ r = l := by
  intro fuel
  induction fuel with
  | zero => intro l t ns2 h; simp [scanCitesAux] at h
  | succ n ih =>
    intro l t ns2 h
    cases l with
    | nil => simp [scanCitesAux] at h
    | cons c cs =>
      cases hm : matchCite (c :: cs) with
      | some pr =>
        obtain ⟨ds, rest⟩ := pr
        simp only [scanCitesAux, hm] at h
        simp at h
      | none =>
        simp only [scanCitesAux, hm] at h
        cases hns : scanCitesAux n cs with
        | nil =>
          rw [hns] at h
          simp only [consText, List.cons.injEq, CNode.text.injEq] at h
          obtain ⟨ht, -⟩ := h
          exact ⟨cs, by rw [← ht]; rfl⟩
        | cons n0 ns3 =>
          rw [hns] at h
          cases n0 with
          | text t0 =>
            simp only [consText, List.cons.injEq, CNode.text.injEq] at h
            obtain ⟨ht, -⟩ := h
            obtain ⟨r, hr⟩ := ih cs t0 ns3 hns
            refine ⟨r, ?_⟩
            rw [← ht, List.cons_append, hr]
          | cite ds0 =>
            simp only [consText, List.cons.injEq, CNode.text.injEq] at h
            obtain ⟨ht, -⟩ := h
            exact ⟨cs, by rw [← ht]; rfl⟩

theorem scan_text_no_marker : ∀ (fuel : Nat) (l : List Char), l.length ≤ fuel →
    ∀ t, CNode.text t ∈ scanCitesAux fuel l → hasMarker t = false := by
  intro fuel
  induction fuel with
  | zero => intro l hl t h; simp [scanCitesAux] at h
  | succ n ih =>
    intro l hl t h
    cases l with
    | nil => simp [scanCitesAux] at h
    | cons c cs =>
      have hcs : cs.length ≤ n := by simp at hl; omega
      cases hm : matchCite (c :: cs) with
      | some pr =>
        obtain ⟨ds, rest⟩ := pr
        have hlen := matchCite_some_shorter _ _ _ hm
        simp only [scanCitesAux, hm, List.mem_cons] at h
        rcases h with h | h
        · simp at h
        · exact ih rest (by simp at hlen hl; omega) t h
      | none =>
        simp only [scanCitesAux, hm] at h
        cases hns : scanCitesAux n cs with
        | nil =>
          rw [hns] at h
          simp only [consText, List.mem_cons, List.not_mem_nil, or_false,
            CNode.text.injEq] at h
          rw [h, hasMarker, matchCite_singleton]
          rfl
        | cons n0 ns2 =>
          rw [hns] at h
          cases n0 with
          | text t0 =>
            simp only [consText, List.mem_cons, CNode.text.injEq] at h
            rcases h with h | h
            · have hmt0 : hasMarker t0 = false :=
                ih cs hcs t0 (by rw [hns]; exact List.mem_cons_self _ _)
              have hmc : matchCite (c :: t0) = none := by
                cases hmc : matchCite (c :: t0) with
                | none => rfl
                | some pr2 =>
                  obtain ⟨ds2, rest2⟩ := pr2
                  obtain ⟨hshape2, hne2, hdig2⟩ := matchCite_some_shape _ _ _ hmc
                  obtain ⟨r, hr⟩ := scan_text_head_prefix n cs t0 ns2 hns
                  have hc2 : c = '[' := by
                    have := congrArg (fun x => x.headD ' ') hshape2
                    simpa using this
                  have ht0 : t0 = ds2 ++ ']' :: rest2 := by
                    have := congrArg List.tail hshape2
                    simpa using this
                  have hcontr : matchCite (c :: cs) = some (ds2, rest2 ++ r) := by
                    rw [hc2]
                    have hcseq : cs = ds2 ++ ']' :: (rest2 ++ r) := by
                      rw [← hr, ht0]
                      simp
                    rw [hcseq]
                    exact matchCite_of_shape ds2 (rest2 ++ r) hne2 hdig2
                  rw [hcontr] at hm
                  exact absurd hm (by simp)
              rw [h, hasMarker, hmc, hmt0]
              rfl
            · exact ih cs hcs t (by rw [hns]; exact List.mem_cons_of_mem _ h)
          | cite ds0 =>
            simp only [consText, List.mem_cons, CNode.text.injEq] at h
            rcases h with h | h | h
            · rw [h, hasMarker, matchCite_singleton]
              rfl
            · simp at h
            · exact ih cs hcs t (by rw [hns]; exact List.mem_cons.mpr (Or.inr h))

/-- Claim C2 counterexample: a citation marker whose source id is not a
decimal number (a content-hash or prefixed id such as source_3, both
admitted by the claim) is left as plain text by the citation processing;
no citation link is produced for it. -/
theorem C2_counterexample :
    processCitations "[source_3]" = [CNode.text "[source_3]".data] := by decide

/-- Claim C2 amended: the citation processing recognizes exactly the
numeric markers: rendering the produced nodes back yields the input
unchanged, every citation node carries a non-empty all-digit id taken
from a bracketed marker, and no marker of the form bracket-digits-
bracket survives inside any plain-text node. -/
theorem C2_citation_processing (s : String) :
    (flattenNodes (processCitations s) = s.data)
    ∧ (∀ ds, CNode.cite ds ∈ processCitations s → ds ≠ [] ∧ ∀ c ∈ ds, Char.isDigit c)
    ∧ (∀ t, CNode.text t ∈ processCitations s → hasMarker t = false) :=
  ⟨scan_flatten s.data.length s.data (Nat.le_refl _),
   fun ds h => scan_cite_digits s.data.length s.data ds h,
   fun t h => scan_text_no_marker s.data.length s.data (Nat.le_refl _) t h⟩

/-- Claim C2 witness at a concrete string with one numeric marker. -/
theorem C2_witness :
    (flattenNodes (processCitations "a[12]b") = "a[12]b".data)
    ∧ ((['1', '2'] : List Char) ≠ [] ∧ ∀ c ∈ (['1', '2'] : List Char), Char.isDigit c)
    ∧ (hasMarker ['b'] = false) :=
  ⟨(C2_citation_processing "a[12]b").1,
   (C2_citation_processing "a[12]b").2.1 ['1', '2'] (by decide),
   (C2_citation_processing "a[12]b").2.2 ['b'] (by decide)⟩

theorem synthesizeReport_ne_empty (st : SessionState) : synthesizeReport st ≠ "" := by
  intro h
  have hlen : (synthesizeReport st).length = 0 := by rw [h]; rfl
  rw [synthesizeReport, String.length_append] at hlen
  have hpos : 0 < ("Best-effort report from partial findings: " : String).length := by decide
  omega

theorem bestEffortReport_ne_empty (st : SessionState) : bestEffortReport st ≠ "" := by
  unfold bestEffortReport
  cases h : st.finalReport with
  | none => exact synthesizeReport_ne_empty st
  | some r =>
    show (if r = "" then synthesizeReport st else r) ≠ ""
    by_cases hr : r = ""
    · rw [if_pos hr]
      exact synthesizeReport_ne_empty st
    · rw [if_neg hr]
      exact hr

theorem dispatchTool_iterations (f : String → List Doc) (st : SessionState)
    (tc : ToolInvocation) : (dispatchTool f st tc).1.iterations = st.iterations := by
  cases tc with
  | searchTool q => rfl
  | modifyChecklist items =>
    cases h : applyUpserts st.checklist items <;> simp [dispatchTool, h]
  | writeSubreport a b c =>
    cases h : st.checklist.upsert (some a) none (some Status.completed)
        (some b) (some c) <;> simp [dispatchTool, h]
  | finishTool r =>
    by_cases h : st.finished <;> simp [dispatchTool, h]
  | unknownTool nm => rfl

theorem dispatchAll_iterations (f : String → List Doc) :
    ∀ (calls : List (String × ToolInvocation)) (st : SessionState),
      (dispatchAll f st calls).1.iterations = st.iterations := by
  intro calls
  induction calls with
  | nil => intro st; rfl
  | cons c rest ih =>
    intro st
    simp only [dispatchAll]
    cases ho : (dispatchTool f st c.2).2.1 with
    | ok m =>
      rw [ih]
      exact dispatchTool_iterations f st c.2
    | errorRes m =>
      rw [ih]
      exact dispatchTool_iterations f st c.2
    | fatalRes m =>
      exact dispatchTool_iterations f st c.2

theorem loopAux_terminal (model : List Message → ModelResponse)
    (searchFn : String → List Doc) :
    ∀ (n : Nat) (st : SessionState),
      ((loopAux model searchFn n st).2 = LoopStatus.FINISHED
        ∨ (loopAux model searchFn n st).2 = LoopStatus.ABORTED)
      ∧ ((loopAux model searchFn n st).2 = LoopStatus.ABORTED →
          ∃ rep, (loopAux model searchFn n st).1.finalReport = some rep ∧ rep ≠ "")
      ∧ (loopAux model searchFn n st).1.iterations ≤ st.iterations + n := by
  intro n
  induction n with
  | zero =>
    intro st
    exact ⟨Or.inr rfl,
      fun _ => ⟨bestEffortReport st, rfl, bestEffortReport_ne_empty st⟩,
      Nat.le_refl _⟩
  | succ n ih =>
    intro st
    simp only [loopAux]
    cases hm : model (cycleStart st).messages with
    | textMsg content =>
      dsimp only
      refine ⟨Or.inl rfl, fun hab => absurd hab (by simp), ?_⟩
      show (cycleStart st).iterations ≤ st.iterations + (n + 1)
      simp [cycleStart]
    | toolCalls calls =>
      dsimp only
      have hDit : (afterDispatch searchFn st calls).1.iterations = st.iterations + 1 := by
        unfold afterDispatch
        exact dispatchAll_iterations searchFn calls _
      set D := afterDispatch searchFn st calls with hD
      by_cases hfat : D.2 = true
      · rw [if_pos hfat]
        refine ⟨Or.inr rfl, ?_, ?_⟩
        · intro _
          exact ⟨bestEffortReport D.1, rfl, bestEffortReport_ne_empty D.1⟩
        · show D.1.iterations ≤ st.iterations + (n + 1)
          omega
      · rw [if_neg hfat]
        by_cases hfin : D.1.finished = true
        · rw [if_pos hfin]
          refine ⟨Or.inl rfl, fun hab => absurd hab (by simp), ?_⟩
          show D.1.iterations ≤ st.iterations + (n + 1)
          omega
        · rw [if_neg hfin]
          have hrec := ih D.1
          refine ⟨hrec.1, hrec.2.1, ?_⟩
          have hit := hrec.2.2
          omega

/-- Claim C3 counterexample: a model that immediately answers with an
empty terminal message makes the session finish with an empty report, so
the unconditional non-empty-report guarantee does not hold for every
model behavior. -/
theorem C3_counterexample :
    (runSession (fun _ => ModelResponse.textMsg "") (fun _ => []) 5 "q").2
      = LoopStatus.FINISHED
    ∧ (runSession (fun _ => ModelResponse.textMsg "") (fun _ => []) 5 "q").1.finalReport
      = some "" := by
  constructor <;> rfl

/-- Claim C3 amended: for every model behavior the loop reaches FINISHED
or ABORTED within the configured iteration bound; every ABORTED exit
(iteration exhaustion or a fatal dispatcher fault) carries a non-empty
best-effort report synthesized from the checklist findings, while a
FINISHED exit returns the model-supplied text, which is only as
non-empty as the model makes it. -/
theorem C3_termination (model : List Message → ModelResponse)
    (searchFn : String → List Doc) (maxIter : Nat) (query : String) :
    ((runSession model searchFn maxIter query).2 = LoopStatus.FINISHED
      ∨ (runSession model searchFn maxIter query).2 = LoopStatus.ABORTED)
    ∧ ((runSession model searchFn maxIter query).2 = LoopStatus.ABORTED →
        ∃ rep, (runSession model searchFn maxIter query).1.finalReport = some rep
          ∧ rep ≠ "")
    ∧ (runSession model searchFn maxIter query).1.iterations ≤ maxIter := by
  have h := loopAux_terminal model searchFn maxIter (initState query)
  exact ⟨h.1, h.2.1, by have := h.2.2; simpa [initState] using this⟩

/-- Claim C3 witness: a model that always proposes another tool call and
never finishes is aborted at the bound with a non-empty report. -/
theorem C3_witness :
    ((runSession (fun _ => ModelResponse.toolCalls [("c1", ToolInvocation.searchTool "w")])
        (fun _ => []) 2 "q").2 = LoopStatus.FINISHED
      ∨ (runSession (fun _ => ModelResponse.toolCalls [("c1", ToolInvocation.searchTool "w")])
          (fun _ => []) 2 "q").2 = LoopStatus.ABORTED)
    ∧ (∃ rep, (runSession (fun _ => ModelResponse.toolCalls
          [("c1", ToolInvocation.searchTool "w")]) (fun _ => []) 2 "q").1.finalReport
        = some rep ∧ rep ≠ "")
    ∧ (runSession (fun _ => ModelResponse.toolCalls [("c1", ToolInvocation.searchTool "w")])
        (fun _ => []) 2 "q").1.iterations ≤ 2 := by
  refine ⟨(C3_termination (fun _ => ModelResponse.toolCalls
      [("c1", ToolInvocation.searchTool "w")]) (fun _ => []) 2 "q").1,
    (C3_termination (fun _ => ModelResponse.toolCalls
      [("c1", ToolInvocation.searchTool "w")]) (fun _ => []) 2 "q").2.1 (by decide),
    (C3_termination (fun _ => ModelResponse.toolCalls
      [("c1", ToolInvocation.searchTool "w")]) (fun _ => []) 2 "q").2.2⟩

end DeepResearch
